import Mathlib

/-!
Shallow embedding of the prediagnostic microservice core:
image normalization (src/models/utils.py, src/inference/predictor.py),
inference (src/models/model.py), and the case lifecycle orchestrator
(src/api/routes.py, src/services/prediagnostic_service.py,
src/services/diagnostic_service.py) over a MongoDB-style document store.

MongoDB documents are association lists from field-name strings to values;
`find_one` and `update_one` act on the first matching document, mirroring
the driver. Python datetimes, floats and nested result dicts are embedded
as constructors of `Val`; floats are modelled as rationals.
-/

namespace Prediag

/-- A MongoDB field value: string, boolean, number, datetime object, the
nested `resultado_modelo` subdocument, or Python `None`. -/
inductive Val where
  | str (s : String)
  | bool (b : Bool)
  | num (q : ℚ)
  | dt (iso : String)
  | result (prob : ℚ) (label : String)
  | null
deriving DecidableEq, Repr

/-- Python truthiness of a stored value (used by
`case["fecha_procesamiento"].isoformat() if case.get(...) else None`). -/
def Val.truthy : Val → Bool
  | .str s => !s.isEmpty
  | .bool b => b
  | .num q => q ≠ 0
  | .dt _ => true
  | .result _ _ => true
  | .null => false

/-- Python `datetime.isoformat()`: defined on datetime values only; calling
it on anything else raises `AttributeError` (modelled as `none`). -/
def Val.isoformat : Val → Option Val
  | .dt iso => some (.str iso)
  | _ => none

/-- A MongoDB document: ordered field-name/value pairs. -/
def Doc := List (String × Val)
deriving DecidableEq, Repr

/-- Dictionary lookup `doc.get(key)` / `doc[key]`: first matching field. -/
def Doc.get (d : Doc) (k : String) : Option Val :=
  (List.find? (fun p => p.1 = k) d).map Prod.snd

/-- MongoDB `$set` of a single field: overwrite the field in place if
present, append it otherwise. -/
def Doc.set (d : Doc) (k : String) (v : Val) : Doc :=
  match d with
  | [] => [(k, v)]
  | p :: rest => if p.1 = k then (k, v) :: rest else p :: Doc.set rest k v

/-- Apply a list of `$set` updates to one document. -/
def Doc.setMany (d : Doc) (us : List (String × Val)) : Doc :=
  us.foldl (fun acc u => Doc.set acc u.1 u.2) d

/-- `collection.find_one({key: value})`: the first document whose field
`key` equals `value`. -/
def findOne (coll : List Doc) (k : String) (v : Val) : Option Doc :=
  coll.find? (fun d => d.get k = some v)

/-- `collection.update_one({key: value}, {"$set": updates})`: update the
first matching document; other documents are untouched. -/
def updateOne (coll : List Doc) (k : String) (v : Val)
    (us : List (String × Val)) : List Doc :=
  match coll with
  | [] => []
  | d :: rest =>
    if d.get k = some v then d.setMany us :: rest
    else d :: updateOne rest k v us

/-- `update_one(...).matched_count > 0` for the same filter. -/
def matchedCount (coll : List Doc) (k : String) (v : Val) : Bool :=
  (findOne coll k v).isSome

/-! Configuration constants from src/config/settings.py. -/

/-- Fixed class-label list (settings.CLASS_LABELS). -/
def CLASS_LABELS : List String :=
  ["No Pneumonia", "Viral Pneumonia", "Bacterial Pneumonia"]

/-- Target resolution as (width, height) (settings.IMAGE_SIZE). -/
def IMAGE_SIZE : Nat × Nat := (500, 720)

/-- JPEG re-encode quality (settings.JPEG_QUALITY). -/
def JPEG_QUALITY : Nat := 95

/-! Inference engine, from PneumoniaModel.predict (src/models/model.py):
`predictions.argmax(axis=-1)[0]` is numpy first-occurrence argmax over the
single output row. -/

/-- Tail of numpy argmax: scan the rest of the row keeping the first index
at which the running maximum was attained (`x > m` strictly, so ties keep
the earlier index). -/
def argmaxAux : List ℚ → Nat → Nat → ℚ → Nat
  | [], _, best, _ => best
  | x :: xs, i, best, m =>
    if m < x then argmaxAux xs (i + 1) i x else argmaxAux xs (i + 1) best m

/-- numpy `argmax` over a row: index of the first occurrence of the
maximum (numpy raises on an empty array; that case is guarded at use). -/
def npArgmax : List ℚ → Nat
  | [] => 0
  | x :: xs => argmaxAux xs 1 0 x

/-- Result dict of PneumoniaModel.predict. -/
structure PredictResult where
  predictions : List ℚ
  predicted_class : String
  predicted_class_index : Nat
  confidence : ℚ
deriving DecidableEq, Repr

/-- PneumoniaModel.predict on the model's single output row: argmax index,
label from CLASS_LABELS, confidence = probability at the argmax. An empty
row (numpy error) or an index beyond the label list (Python IndexError)
raises, modelled as `none`. -/
def predict (row : List ℚ) : Option PredictResult :=
  if row.isEmpty then none
  else
    match CLASS_LABELS.get? (npArgmax row), row.get? (npArgmax row) with
    | some lab, some c =>
      some { predictions := row, predicted_class := lab
             predicted_class_index := npArgmax row, confidence := c }
    | _, _ => none

/-! Image normalizer, from src/models/utils.py and
src/inference/predictor.py. A PIL image is its spatial size, its color
mode, whether `verify()` passes, and uint8 channel data (up to 4 channels;
uint8 storage is captured by `Fin 256`). The numeric kernels the claims do
not depend on (Lanczos resampling, the JPEG codec, byte decoding, the
model forward pass) are opaque function parameters. -/

/-- PIL color modes appearing in practice; the code supports exactly
`['RGB', 'RGBA', 'L', 'P']`. -/
inductive PILMode where
  | one | L | LA | P | I | F | RGB | YCbCr | RGBA | CMYK
deriving DecidableEq, Repr

/-- Channel count of `np.array(image)` per mode: `none` means the array is
2-dimensional (grayscale-like); `some k` means shape `(h, w, k)`. -/
def npChannels : PILMode → Option Nat
  | .one | .L | .P | .I | .F => none
  | .LA => some 2
  | .RGB | .YCbCr => some 3
  | .RGBA | .CMYK => some 4

/-- An in-memory PIL image: size, mode, integrity (whether `verify()`
passes), and uint8 channel data indexed by row, column, channel. -/
structure PILImage where
  width : Nat
  height : Nat
  mode : PILMode
  intact : Bool
  data : Nat → Nat → Fin 4 → Fin 256

/-- validate_image (src/models/utils.py): `verify()` must pass, both
spatial dimensions must be at least 50, and the mode must be one of
`['RGB', 'RGBA', 'L', 'P']`. -/
def validate_image (img : PILImage) : Bool :=
  if !img.intact then false
  else if img.width < 50 || img.height < 50 then false
  else if img.mode ∉ [PILMode.RGB, .RGBA, .L, .P] then false
  else true

/-- Channel data after PIL `image.convert("RGB")`: grayscale-like modes
replicate the single channel, multi-channel modes keep the first three
channels (PIL's exact per-mode channel arithmetic is abstracted; no claim
depends on the converted pixel values). -/
def rgbData (m : PILMode) (d : Nat → Nat → Fin 4 → Fin 256) :
    Nat → Nat → Fin 4 → Fin 256 :=
  match npChannels m with
  | none => fun r c _ => d r c 0
  | some 2 => fun r c _ => d r c 0
  | some _ => d

/-- PIL `image.convert("RGB")`: same size, mode RGB. -/
def toRGB (img : PILImage) : PILImage :=
  { img with mode := .RGB, data := rgbData img.mode img.data }

/-- convert_one_channel_to_three_channels (src/models/utils.py): a
2-dimensional array is broadcast to RGB via `cv2.COLOR_GRAY2RGB`; a
3-channel array passes through; anything else raises ValueError. -/
def convert_one_channel_to_three_channels (img : PILImage) :
    Except String PILImage :=
  match npChannels img.mode with
  | none => .ok (toRGB img)
  | some 3 => .ok img
  | some _ => .error "Image format not recognized. It must be grayscale or RGB."

/-- The Lanczos resampling kernel: source data, source size, target size
to target uint8 data. Opaque numeric computation, passed as a parameter;
its output is uint8 storage by type. -/
def ResampleK : Type :=
  (Nat → Nat → Fin 4 → Fin 256) → Nat × Nat → Nat × Nat →
    Nat → Nat → Fin 4 → Fin 256

/-- resize_image (src/models/utils.py): `image.resize(size, LANCZOS)`
with size = (width, height). -/
def resize_image (resample : ResampleK) (img : PILImage) (size : Nat × Nat) :
    PILImage :=
  { img with width := size.1, height := size.2
             data := resample img.data (img.width, img.height) size }

/-- The JPEG encode/decode cycle: pixel data, size and quality to decoded
pixel data. Opaque (lossy) but deterministic codec, passed as a
parameter. -/
def JpegK : Type :=
  (Nat → Nat → Fin 4 → Fin 256) → Nat × Nat → Nat →
    Nat → Nat → Fin 4 → Fin 256

/-- convert_to_jpeg (src/models/utils.py) followed by re-opening the
in-memory JPEG (src/inference/predictor.py): convert to RGB if needed,
encode at JPEG_QUALITY, decode; size is preserved, mode becomes RGB. -/
def convert_to_jpeg_reopen (jpeg : JpegK) (img : PILImage) : PILImage :=
  let rgb := if img.mode = .RGB then img else toRGB img
  { width := rgb.width, height := rgb.height, mode := .RGB, intact := true
    data := jpeg rgb.data (rgb.width, rgb.height) JPEG_QUALITY }

/-- A 4-dimensional numpy array of floats as nested lists. -/
abbrev Tensor4 : Type := List (List (List (List ℚ)))

/-- numpy shape of a (rectangularly built) 4-dimensional array, read off
the first element of each nesting level. -/
def shape4 (t : Tensor4) : List Nat :=
  [t.length, (t.headD []).length, ((t.headD []).headD []).length,
   (((t.headD []).headD []).headD []).length]

/-- `np.expand_dims(np.array(img) / 255.0, axis=0)` for an RGB image:
shape (1, height, width, 3), each value the uint8 channel value divided
by 255. -/
def imageArray (img : PILImage) : Tensor4 :=
  [(List.range img.height).map fun i =>
    (List.range img.width).map fun j =>
      (List.range 3).map fun c =>
        ((img.data i j ⟨c % 4, Nat.mod_lt c (by norm_num)⟩ : Fin 256) : ℚ) / 255]

/-- preprocess_image (src/models/utils.py): channel conversion, Lanczos
resize to the configured size, scale to [0, 1], add the batch
dimension. -/
def preprocess_image (resample : ResampleK) (img : PILImage)
    (size : Nat × Nat) : Except String Tensor4 :=
  (convert_one_channel_to_three_channels img).map fun converted =>
    imageArray (resize_image resample converted size)

/-- Raw uploaded file content. -/
def Bytes : Type := List Nat

/-- Typed pipeline failures of predict_from_file. -/
inductive PipeErr where
  | decodeError
  | validationError
  | convertError (msg : String)
  | inferenceError
deriving DecidableEq, Repr

/-- The normalization portion of predict_from_file
(src/inference/predictor.py): decode the bytes (`Image.open`), validate a
fresh decode of the same bytes, re-encode to JPEG and reopen, then
preprocess. Returns the tensor handed to the model. -/
def normalize_from_file (decode : Bytes → Option PILImage)
    (resample : ResampleK) (jpeg : JpegK) (content : Bytes) :
    Except PipeErr Tensor4 :=
  match decode content with
  | none => .error .decodeError
  | some original =>
    if !validate_image original then .error .validationError
    else
      match preprocess_image resample (convert_to_jpeg_reopen jpeg original)
              IMAGE_SIZE with
      | .error e => .error (.convertError e)
      | .ok t => .ok t

/-- Response dict of predict_from_file (metadata plus the spread
prediction result). -/
structure FileResponse where
  prediction_id : String
  timestamp : String
  filename : Option String
  original_size : Nat × Nat
  original_mode : PILMode
  result : PredictResult
deriving DecidableEq

/-- predict_from_file (src/inference/predictor.py): normalize, run the
model forward pass (`modelK`, opaque), post-process with predict, and
assemble the response; `pid` and `ts` are the per-call uuid and clock
reading. -/
def predict_from_file (decode : Bytes → Option PILImage)
    (resample : ResampleK) (jpeg : JpegK) (modelK : Tensor4 → List ℚ)
    (pid ts : String) (content : Bytes) (filename : Option String) :
    Except PipeErr FileResponse :=
  match decode content with
  | none => .error .decodeError
  | some original =>
    match normalize_from_file decode resample jpeg content with
    | .error e => .error e
    | .ok t =>
      match predict (modelK t) with
      | none => .error .inferenceError
      | some r =>
        .ok { prediction_id := pid, timestamp := ts, filename := filename
              original_size := (original.width, original.height)
              original_mode := original.mode, result := r }

/-- The part of a FileResponse that does not echo the per-call uuid and
clock reading. -/
def FileResponse.payload (r : FileResponse) :
    Option String × (Nat × Nat) × PILMode × PredictResult :=
  (r.filename, r.original_size, r.original_mode, r.result)

/-! Case lifecycle orchestrator, from src/api/routes.py,
src/services/prediagnostic_service.py and
src/services/diagnostic_service.py. The document store is the pair of the
`prediagnosticos` and `diagnosticos` collections; each handler returns its
HTTP-level outcome together with the store it leaves behind. -/

/-- The two MongoDB collections. -/
structure Store where
  prediagnosticos : List Doc
  diagnosticos : List Doc
deriving DecidableEq

/-- The store before any request. -/
def Store.empty : Store := ⟨[], []⟩

/-- Externally visible outcome categories of a handler: 200 with a body,
404, 400 (invalid state), 422 (request-body validation) and 500. -/
inductive Resp where
  | ok (body : Doc)
  | okList (body : List Doc)
  | notFound
  | badRequest
  | unprocessable
  | serverError
deriving DecidableEq

/-- The `entrada` document built by process_image (src/api/routes.py):
state `pendiente`, placeholder `resultado_modelo`, `fecha_procesamiento`
the number 0, `fecha_subida` a stringified datetime. -/
def pendingDoc (uid pid ruta ts : String) : Doc :=
  [("user_id", .str uid), ("prediagnostico_id", .str pid),
   ("radiografia_ruta", .str ruta), ("resultado_modelo", .result 0 ""),
   ("estado", .str "pendiente"), ("fecha_procesamiento", .num 0),
   ("fecha_subida", .str ts)]

/-- The `$set` payload of process_image_ai
(src/services/prediagnostic_service.py). -/
def aiUpdates (conf : ℚ) (lab : String) (tp : String) : List (String × Val) :=
  [("resultado_modelo", .result conf lab), ("estado", .str "procesado"),
   ("fecha_procesamiento", .dt tp)]

/-- A case document after process_image_ai succeeded. -/
def processedDoc (uid pid ruta ts tp : String) (conf : ℚ) (lab : String) :
    Doc :=
  [("user_id", .str uid), ("prediagnostico_id", .str pid),
   ("radiografia_ruta", .str ruta), ("resultado_modelo", .result conf lab),
   ("estado", .str "procesado"), ("fecha_procesamiento", .dt tp),
   ("fecha_subida", .str ts)]

/-- A case document after update_prediagnostic_status set it to
`Validado` (which also appends `fecha_actualizacion`). -/
def validatedDoc (uid pid ruta ts tp : String) (conf : ℚ) (lab : String)
    (tu : String) : Doc :=
  [("user_id", .str uid), ("prediagnostico_id", .str pid),
   ("radiografia_ruta", .str ruta), ("resultado_modelo", .result conf lab),
   ("estado", .str "Validado"), ("fecha_procesamiento", .dt tp),
   ("fecha_subida", .str ts), ("fecha_actualizacion", .str tu)]

/-- POST /process (src/api/routes.py): insert the `pendiente` record, then
run process_image_ai. `inf` is the model's raw output row when every step
up to the forward pass succeeded (file read-back, RGB conversion, model
load, validation, preprocessing), `none` when any of them raised; predict
post-processing can still raise on the row. Any such failure is answered
with a 500 after the insert, which is not compensated. -/
def process_image (s : Store) (uid pid ruta ts tp : String)
    (inf : Option (List ℚ)) : Resp × Store :=
  let entrada := pendingDoc uid pid ruta ts
  let s1 : Store := { s with prediagnosticos := s.prediagnosticos ++ [entrada] }
  match inf.bind predict with
  | none => (.serverError, s1)
  | some r =>
    let updated :=
      updateOne s1.prediagnosticos "prediagnostico_id" (.str pid)
        (aiUpdates r.confidence r.predicted_class tp)
    let s2 : Store := { s1 with prediagnosticos := updated }
    (.ok [("ruta_prediagnostico", .str ruta), ("prediagnostico_id", .str pid)],
     s2)

/-- The diagnostic document built by save_diagnostic (src/api/routes.py):
note the foreign key is stored under the field name `prediagnostico_id`. -/
def reviewDoc (did pid : String) (a : Bool) (c tr : String) : Doc :=
  [("_id", .str did), ("prediagnostico_id", .str pid),
   ("aprobacion", .bool a), ("comentarios", .str c),
   ("fecha_revision", .str tr)]

/-- `prediagnostic_case.get("estado", "")`. -/
def caseEstado (d : Doc) : Val := (d.get "estado").getD (.str "")

/-- POST /diagnostic/{prediagnostic_id} (src/api/routes.py): the Pydantic
boundary rejects comments shorter than 10 characters (422); then the case
must exist (404) and be in state `procesado` (400); on success the review
is inserted and the case is set to `Validado`, in that order. -/
def save_diagnostic (s : Store) (pid : String) (a : Bool) (c : String)
    (did tr tu : String) : Resp × Store :=
  if c.length < 10 then (.unprocessable, s)
  else
    match findOne s.prediagnosticos "prediagnostico_id" (.str pid) with
    | none => (.notFound, s)
    | some cas =>
      if caseEstado cas ≠ .str "procesado" then (.badRequest, s)
      else
        let doc := reviewDoc did pid a c tr
        (.ok doc,
         { prediagnosticos :=
             updateOne s.prediagnosticos "prediagnostico_id" (.str pid)
               [("estado", .str "Validado"), ("fecha_actualizacion", .str tu)]
           diagnosticos := s.diagnosticos ++ [doc] })

/-- GET /diagnostic/{case_id} (src/api/routes.py), backed by
get_diagnostic_by_case_id (src/services/prediagnostic_service.py): the
lookup filters the diagnosticos collection on the field name `case_id`.
A found document has `isoformat()` called on a truthy `fecha_revision`,
which raises (500) unless the value is a datetime. -/
def get_diagnostic (s : Store) (cid : String) : Resp :=
  match findOne s.diagnosticos "case_id" (.str cid) with
  | none => .notFound
  | some d =>
    match d.get "fecha_revision" with
    | none => .ok d
    | some v =>
      if v.truthy then
        match v.isoformat with
        | some iso => .ok (d.set "fecha_revision" iso)
        | none => .serverError
      else .ok d

/-- One row of the HU3 list view (src/services/prediagnostic_service.py):
direct key access raises KeyError on a missing field (`none`), and a
truthy non-datetime `fecha_procesamiento` raises on `isoformat()`. -/
def formatCase (d : Doc) : Option Doc :=
  match d.get "prediagnostico_id", d.get "user_id", d.get "estado" with
  | some pid, some uid, some est =>
    let fecha : Option Val :=
      match d.get "fecha_procesamiento" with
      | some v => if v.truthy then v.isoformat else some .null
      | none => some .null
    fecha.map fun f => [("id", pid), ("paciente", uid), ("fecha", f),
                        ("estado", est)]
  | _, _, _ => none

/-- Sequential collect of an Option-producing map; the first raised
exception aborts the whole request. -/
def collectSome (f : α → Option β) : List α → Option (List β)
  | [] => some []
  | x :: xs =>
    match f x, collectSome f xs with
    | some y, some ys => some (y :: ys)
    | _, _ => none

/-- get_processed_cases (src/services/prediagnostic_service.py): filter
the cases collection on `estado = "procesado"` and format each row. -/
def get_processed_cases (s : Store) : Option (List Doc) :=
  collectSome formatCase
    (s.prediagnosticos.filter fun d => d.get "estado" = some (.str "procesado"))

/-- GET /cases (src/api/routes.py): 200 with the list, 500 if the service
raised. -/
def get_processed_cases_route (s : Store) : Resp :=
  match get_processed_cases s with
  | none => .serverError
  | some out => .okList out

/-! Sequential executions of the orchestrator. -/

/-- One state-changing orchestrator request. -/
inductive Op where
  | submitCase (uid pid ruta ts tp : String) (inf : Option (List ℚ))
  | submitReview (pid : String) (a : Bool) (c did tr tu : String)

/-- The store left behind by a request (read-only requests change
nothing). -/
def applyOp (s : Store) : Op → Store
  | .submitCase uid pid ruta ts tp inf =>
    (process_image s uid pid ruta ts tp inf).2
  | .submitReview pid a c did tr tu =>
    (save_diagnostic s pid a c did tr tu).2

/-- Stores reachable by a sequential execution from the empty store. The
side condition on submitCase is the collision-resistance of the uuid4
case identifier: the generated id matches no existing case. -/
inductive Reach : Store → Prop where
  | empty : Reach Store.empty
  | caseStep {s : Store} {uid pid ruta ts tp : String}
      {inf : Option (List ℚ)} :
      Reach s →
      findOne s.prediagnosticos "prediagnostico_id" (.str pid) = none →
      Reach (applyOp s (.submitCase uid pid ruta ts tp inf))
  | reviewStep {s : Store} {pid : String} {a : Bool} {c did tr tu : String} :
      Reach s → Reach (applyOp s (.submitReview pid a c did tr tu))

/-- The foreign-key field shared by both collections. -/
def pidVal (d : Doc) : Option Val := d.get "prediagnostico_id"

/-- Every case document is a pending, processed or validated record; the
label of a processed or validated record came out of the label list. -/
def CaseShape (d : Doc) : Prop :=
  (∃ uid pid ruta ts, d = pendingDoc uid pid ruta ts) ∨
  (∃ uid pid ruta ts tp conf lab, lab ∈ CLASS_LABELS ∧
    d = processedDoc uid pid ruta ts tp conf lab) ∨
  (∃ uid pid ruta ts tp conf lab tu, lab ∈ CLASS_LABELS ∧
    d = validatedDoc uid pid ruta ts tp conf lab tu)

/-- Every diagnostic document was written by save_diagnostic. -/
def ReviewShape (d : Doc) : Prop :=
  ∃ did pid a c tr, d = reviewDoc did pid a c tr

/-- The invariant of stores reachable by sequential executions. -/
structure Inv (s : Store) : Prop where
  cases : ∀ d ∈ s.prediagnosticos, CaseShape d
  reviews : ∀ d ∈ s.diagnosticos, ReviewShape d
  reviewsPairwise : s.diagnosticos.Pairwise fun a b => pidVal a ≠ pidVal b
  reviewValidated : ∀ d ∈ s.diagnosticos, ∀ pid, pidVal d = some (.str pid) →
    ∃ cas, findOne s.prediagnosticos "prediagnostico_id" (.str pid) =
        some cas ∧ cas.get "estado" = some (.str "Validado")

/-! Lemmas about the document-store primitives. -/

theorem Doc.get_set_ne (d : List (String × Val)) (k' k : String) (v : Val)
    (h : k' ≠ k) : Doc.get (Doc.set d k' v) k = Doc.get d k := by
  induction d with
  | nil => simp [Doc.set, Doc.get, List.find?, h]
  | cons p rest ih =>
    by_cases hp : p.1 = k'
    · simp only [Doc.set, hp, if_pos rfl]
      simp [Doc.get, List.find?, hp, h]
    · simp only [Doc.set, if_neg hp]
      by_cases hk : p.1 = k
      · simp [Doc.get, List.find?, hk]
      · simp only [Doc.get, List.find?, hk] at ih ⊢
        simpa [hk] using ih

theorem Doc.get_setMany_ne (us : List (String × Val))
    (d : List (String × Val)) (k : String) (h : ∀ u ∈ us, u.1 ≠ k) :
    Doc.get (Doc.setMany d us) k = Doc.get d k := by
  induction us generalizing d with
  | nil => rfl
  | cons u us ih =>
    have h1 : u.1 ≠ k := h u (List.mem_cons_self u us)
    have h2 : ∀ w ∈ us, w.1 ≠ k := fun w hw => h w (List.mem_cons_of_mem u hw)
    calc Doc.get (Doc.setMany d (u :: us)) k
        = Doc.get (Doc.setMany (Doc.set d u.1 u.2) us) k := rfl
      _ = Doc.get (Doc.set d u.1 u.2) k := ih (Doc.set d u.1 u.2) h2
      _ = Doc.get d k := Doc.get_set_ne d u.1 k u.2 h1

theorem findOne_append (l1 l2 : List Doc) (k : String) (v : Val) :
    findOne (l1 ++ l2) k v = (findOne l1 k v).or (findOne l2 k v) :=
  List.find?_append

theorem findOne_mem {l : List Doc} {k : String} {v : Val} {d : Doc}
    (h : findOne l k v = some d) : d ∈ l ∧ d.get k = some v :=
  ⟨List.mem_of_find?_eq_some h, by simpa using List.find?_some h⟩

theorem findOne_eq_none {l : List Doc} {k : String} {v : Val} :
    findOne l k v = none ↔ ∀ d ∈ l, ¬ d.get k = some v := by
  simp [findOne, List.find?_eq_none]

theorem updateOne_append_last (l : List Doc) (d : Doc) (k : String) (v : Val)
    (us : List (String × Val)) (hl : ∀ x ∈ l, ¬ x.get k = some v)
    (hd : d.get k = some v) :
    updateOne (l ++ [d]) k v us = l ++ [Doc.setMany d us] := by
  induction l with
  | nil => simp [updateOne, hd]
  | cons x rest ih =>
    have hx : ¬ x.get k = some v := hl x (List.mem_cons_self x rest)
    have hrest : ∀ y ∈ rest, ¬ y.get k = some v :=
      fun y hy => hl y (List.mem_cons_of_mem x hy)
    simp [updateOne, hx, ih hrest]

theorem updateOne_decomp {l : List Doc} {k : String} {v : Val} {d : Doc}
    (h : findOne l k v = some d) (us : List (String × Val)) :
    ∃ l1 l2, l = l1 ++ d :: l2 ∧ (∀ x ∈ l1, ¬ x.get k = some v) ∧
      updateOne l k v us = l1 ++ Doc.setMany d us :: l2 := by
  induction l with
  | nil => simp [findOne, List.find?] at h
  | cons x rest ih =>
    by_cases hx : x.get k = some v
    · have hd : x = d := by
        simpa [findOne, List.find?, hx] using h
      subst hd
      refine ⟨[], rest, by simp, by simp, ?_⟩
      simp [updateOne, hx]
    · have h2 : findOne rest k v = some d := by
        simpa [findOne, List.find?, hx] using h
      obtain ⟨l1, l2, heq, hfree, hupd⟩ := ih h2
      exact ⟨x :: l1, l2, by simp [heq], by
        intro y hy
        rcases List.mem_cons.mp hy with rfl | hy2
        · exact hx
        · exact hfree y hy2, by simp [updateOne, hx, hupd]⟩

theorem findOne_updateOne_ne {l : List Doc} {k : String} {v v' : Val}
    {us : List (String × Val)} (hus : ∀ u ∈ us, u.1 ≠ k) (hvv : v' ≠ v) :
    findOne (updateOne l k v us) k v' = findOne l k v' := by
  induction l with
  | nil => rfl
  | cons d rest ih =>
    by_cases hd : d.get k = some v
    · have hset : Doc.get (Doc.setMany d us) k = some v :=
        (Doc.get_setMany_ne us d k hus).trans hd
      have hne : ¬ Doc.get (Doc.setMany d us) k = some v' := by
        rw [hset]; simpa using fun h => hvv h.symm
      have hne2 : ¬ d.get k = some v' := by
        rw [hd]; simpa using fun h => hvv h.symm
      simp only [updateOne]
      rw [if_pos hd]
      simp [findOne, List.find?, hne, hne2]
    · simp only [updateOne]
      rw [if_neg hd]
      by_cases hd2 : d.get k = some v'
      · simp [findOne, List.find?, hd2]
      · simpa [findOne, List.find?, hd2] using ih

theorem findOne_prefix (l1 : List Doc) (d : Doc) (l2 : List Doc)
    (k : String) (v : Val) (h1 : ∀ x ∈ l1, ¬ x.get k = some v)
    (hd : d.get k = some v) : findOne (l1 ++ d :: l2) k v = some d := by
  induction l1 with
  | nil => simp [findOne, List.find?, hd]
  | cons x rest ih =>
    have hx : ¬ x.get k = some v := h1 x (List.mem_cons_self x rest)
    have hrest : ∀ y ∈ rest, ¬ y.get k = some v :=
      fun y hy => h1 y (List.mem_cons_of_mem x hy)
    simpa [findOne, List.find?, hx] using ih hrest

theorem pairwise_filter_length_le_one {α β : Type} [DecidableEq β]
    (f : α → β) (c : β) (l : List α)
    (h : l.Pairwise fun a b => f a ≠ f b) :
    (l.filter fun x => f x = c).length ≤ 1 := by
  induction l with
  | nil => simp
  | cons a rest ih =>
    have hrest := ih (List.Pairwise.sublist (List.sublist_cons_self a rest) h)
    have hall : ∀ b ∈ rest, f a ≠ f b :=
      fun b hb => List.rel_of_pairwise_cons h hb
    by_cases ha : f a = c
    · have hnone : (rest.filter fun x => f x = c) = [] := by
        refine List.filter_eq_nil_iff.mpr ?_
        intro b hb
        simp only [decide_eq_true_eq]
        intro hc
        exact hall b hb (ha.trans hc.symm)
      simp [List.filter, ha, hnone]
    · simpa [List.filter, ha] using hrest

/-! Shapes of the documents this subsystem writes. -/

theorem pendingDoc_get_pid (uid pid ruta ts : String) :
    Doc.get (pendingDoc uid pid ruta ts) "prediagnostico_id" =
      some (.str pid) := rfl

theorem pendingDoc_get_estado (uid pid ruta ts : String) :
    Doc.get (pendingDoc uid pid ruta ts) "estado" =
      some (.str "pendiente") := rfl

theorem pendingDoc_get_resultado (uid pid ruta ts : String) :
    Doc.get (pendingDoc uid pid ruta ts) "resultado_modelo" =
      some (.result 0 "") := rfl

theorem processedDoc_get_pid (uid pid ruta ts tp : String) (conf : ℚ)
    (lab : String) :
    Doc.get (processedDoc uid pid ruta ts tp conf lab) "prediagnostico_id" =
      some (.str pid) := rfl

theorem processedDoc_get_estado (uid pid ruta ts tp : String) (conf : ℚ)
    (lab : String) :
    Doc.get (processedDoc uid pid ruta ts tp conf lab) "estado" =
      some (.str "procesado") := rfl

theorem processedDoc_get_resultado (uid pid ruta ts tp : String) (conf : ℚ)
    (lab : String) :
    Doc.get (processedDoc uid pid ruta ts tp conf lab) "resultado_modelo" =
      some (.result conf lab) := rfl

theorem validatedDoc_get_pid (uid pid ruta ts tp : String) (conf : ℚ)
    (lab tu : String) :
    Doc.get (validatedDoc uid pid ruta ts tp conf lab tu)
      "prediagnostico_id" = some (.str pid) := rfl

theorem validatedDoc_get_estado (uid pid ruta ts tp : String) (conf : ℚ)
    (lab tu : String) :
    Doc.get (validatedDoc uid pid ruta ts tp conf lab tu) "estado" =
      some (.str "Validado") := rfl

theorem validatedDoc_get_resultado (uid pid ruta ts tp : String) (conf : ℚ)
    (lab tu : String) :
    Doc.get (validatedDoc uid pid ruta ts tp conf lab tu)
      "resultado_modelo" = some (.result conf lab) := rfl

theorem reviewDoc_get_pid (did pid : String) (a : Bool) (c tr : String) :
    Doc.get (reviewDoc did pid a c tr) "prediagnostico_id" =
      some (.str pid) := rfl

theorem reviewDoc_get_case_id (did pid : String) (a : Bool) (c tr : String) :
    Doc.get (reviewDoc did pid a c tr) "case_id" = none := rfl

theorem pendingDoc_setMany_ai (uid pid ruta ts tp : String) (conf : ℚ)
    (lab : String) :
    Doc.setMany (pendingDoc uid pid ruta ts) (aiUpdates conf lab tp) =
      processedDoc uid pid ruta ts tp conf lab := rfl

theorem processedDoc_setMany_validado (uid pid ruta ts tp : String)
    (conf : ℚ) (lab tu : String) :
    Doc.setMany (processedDoc uid pid ruta ts tp conf lab)
        [("estado", .str "Validado"), ("fecha_actualizacion", .str tu)] =
      validatedDoc uid pid ruta ts tp conf lab tu := rfl

theorem aiUpdates_keys_ne_pid (conf : ℚ) (lab tp : String) :
    ∀ u ∈ aiUpdates conf lab tp, u.1 ≠ "prediagnostico_id" := by
  intro u hu
  simp only [aiUpdates, List.mem_cons, List.mem_singleton] at hu
  rcases hu with rfl | rfl | rfl | h <;> simp_all

theorem validadoUpdates_keys_ne_pid (tu : String) :
    ∀ u ∈ [(("estado" : String), Val.str "Validado"),
           (("fecha_actualizacion" : String), Val.str tu)],
      u.1 ≠ "prediagnostico_id" := by
  intro u hu
  simp only [List.mem_cons, List.mem_singleton] at hu
  rcases hu with rfl | rfl | h <;> simp_all

theorem predict_some {row : List ℚ} {r : PredictResult}
    (h : predict row = some r) :
    r.predictions = row ∧ r.predicted_class_index = npArgmax row ∧
    CLASS_LABELS.get? (npArgmax row) = some r.predicted_class ∧
    row.get? (npArgmax row) = some r.confidence := by
  unfold predict at h
  split at h
  · exact absurd h (by simp)
  · split at h
    · next lab conf hl hc =>
      cases h
      exact ⟨rfl, rfl, hl, hc⟩
    · exact absurd h (by simp)

theorem predict_label_mem {row : List ℚ} {r : PredictResult}
    (h : predict row = some r) : r.predicted_class ∈ CLASS_LABELS :=
  List.get?_mem (predict_some h).2.2.1

theorem inv_empty : Inv Store.empty := by
  constructor <;> simp [Store.empty]

theorem inv_append_case {s : Store} (inv : Inv s) (newd : Doc)
    (hshape : CaseShape newd) :
    Inv ⟨s.prediagnosticos ++ [newd], s.diagnosticos⟩ := by
  constructor
  · intro d hd
    rcases List.mem_append.mp hd with hold | hnew
    · exact inv.cases d hold
    · rw [List.mem_singleton.mp hnew]; exact hshape
  · exact inv.reviews
  · exact inv.reviewsPairwise
  · intro d hd pid hpid
    obtain ⟨cas, hf, hv⟩ := inv.reviewValidated d hd pid hpid
    refine ⟨cas, ?_, hv⟩
    rw [findOne_append, hf]
    rfl

theorem caseEstado_eq_some {d : Doc} (h : caseEstado d = .str "procesado") :
    d.get "estado" = some (.str "procesado") := by
  unfold caseEstado at h
  cases hg : d.get "estado" with
  | none => rw [hg] at h; simp at h
  | some v => rw [hg] at h; simpa using h

theorem caseShape_procesado {d : Doc} (hs : CaseShape d)
    (he : d.get "estado" = some (.str "procesado")) :
    ∃ uid pid ruta ts tp conf lab, lab ∈ CLASS_LABELS ∧
      d = processedDoc uid pid ruta ts tp conf lab := by
  rcases hs with ⟨uid, pid, ruta, ts, rfl⟩ | h |
      ⟨uid, pid, ruta, ts, tp, conf, lab, tu, hlab, rfl⟩
  · rw [pendingDoc_get_estado] at he; simp at he
  · exact h
  · rw [validatedDoc_get_estado] at he; simp at he

theorem inv_review_step {s : Store} (inv : Inv s) {pid : String} {cas : Doc}
    (hfind : findOne s.prediagnosticos "prediagnostico_id" (.str pid) =
      some cas)
    (hget : cas.get "estado" = some (.str "procesado"))
    (did : String) (a : Bool) (c tr tu : String) :
    Inv ⟨updateOne s.prediagnosticos "prediagnostico_id" (.str pid)
          [("estado", .str "Validado"), ("fecha_actualizacion", .str tu)],
        s.diagnosticos ++ [reviewDoc did pid a c tr]⟩ := by
  obtain ⟨hmem, hpidv⟩ := findOne_mem hfind
  obtain ⟨uid, pid0, ruta, ts, tp, conf, lab, hlab, hcas⟩ :=
    caseShape_procesado (inv.cases cas hmem) hget
  have hpid0 : pid0 = pid := by
    rw [hcas, processedDoc_get_pid] at hpidv
    simpa [Val.str.injEq] using hpidv
  rw [hpid0] at hcas
  obtain ⟨l1, l2, heq, hfree1, hupd⟩ := updateOne_decomp hfind
    [("estado", Val.str "Validado"), ("fecha_actualizacion", Val.str tu)]
  have hlist : updateOne s.prediagnosticos "prediagnostico_id" (.str pid)
      [("estado", .str "Validado"), ("fecha_actualizacion", .str tu)] =
      l1 ++ validatedDoc uid pid ruta ts tp conf lab tu :: l2 := by
    rw [hupd, hcas, processedDoc_setMany_validado]
  rw [hlist]
  constructor
  · intro d hd
    rcases List.mem_append.mp hd with h1 | h2
    · exact inv.cases d (by rw [heq]; exact List.mem_append_left _ h1)
    · rcases List.mem_cons.mp h2 with rfl | h3
      · exact Or.inr (Or.inr ⟨uid, pid, ruta, ts, tp, conf, lab, tu, hlab,
          rfl⟩)
      · exact inv.cases d (by
          rw [heq]
          exact List.mem_append_right _ (List.mem_cons_of_mem _ h3))
  · intro d hd
    rcases List.mem_append.mp hd with h1 | h2
    · exact inv.reviews d h1
    · rw [List.mem_singleton.mp h2]; exact ⟨did, pid, a, c, tr, rfl⟩
  · rw [List.pairwise_append]
    refine ⟨inv.reviewsPairwise, by simp, ?_⟩
    intro dold hold dnew hnew
    rw [List.mem_singleton.mp hnew]
    intro hcontra
    obtain ⟨didO, pidO, aO, cO, trO, hrfl⟩ := inv.reviews dold hold
    have hpids : pidVal dold = some (.str pidO) := by
      rw [hrfl]; exact reviewDoc_get_pid didO pidO aO cO trO
    have hpidO : pidO = pid := by
      rw [hpids] at hcontra
      have : Doc.get (reviewDoc did pid a c tr) "prediagnostico_id" =
          some (.str pid) := reviewDoc_get_pid did pid a c tr
      rw [show pidVal (reviewDoc did pid a c tr) = some (.str pid) from this]
        at hcontra
      simpa [Val.str.injEq] using hcontra
    obtain ⟨cas2, hf2, hv2⟩ := inv.reviewValidated dold hold pidO hpids
    rw [hpidO, hfind] at hf2
    obtain rfl : cas = cas2 := Option.some.inj hf2
    rw [hget] at hv2
    simp at hv2
  · intro d hd pid2 hpid2
    rcases List.mem_append.mp hd with h1 | h2
    · obtain ⟨cas2, hf2, hv2⟩ := inv.reviewValidated d h1 pid2 hpid2
      by_cases hpp : pid2 = pid
      · subst hpp
        rw [hfind] at hf2
        obtain rfl : cas = cas2 := Option.some.inj hf2
        rw [hget] at hv2
        simp at hv2
      · refine ⟨cas2, ?_, hv2⟩
        rw [← hlist,
          findOne_updateOne_ne (validadoUpdates_keys_ne_pid tu)
            (by simpa [Val.str.injEq] using hpp)]
        exact hf2
    · have hdnew : d = reviewDoc did pid a c tr := List.mem_singleton.mp h2
      have hpid2v : pid2 = pid := by
        rw [hdnew] at hpid2
        have : pidVal (reviewDoc did pid a c tr) = some (.str pid) :=
          reviewDoc_get_pid did pid a c tr
        rw [this] at hpid2
        simpa [Val.str.injEq] using hpid2.symm
      rw [hpid2v]
      refine ⟨validatedDoc uid pid ruta ts tp conf lab tu, ?_,
        validatedDoc_get_estado uid pid ruta ts tp conf lab tu⟩
      exact findOne_prefix l1 _ l2 _ _ hfree1
        (validatedDoc_get_pid uid pid ruta ts tp conf lab tu)

theorem reach_inv {s : Store} (h : Reach s) : Inv s := by
  induction h with
  | empty => exact inv_empty
  | @caseStep s uid pid ruta ts tp inf hr hfresh ih =>
    have hfree : ∀ x ∈ s.prediagnosticos,
        ¬ x.get "prediagnostico_id" = some (.str pid) :=
      findOne_eq_none.mp hfresh
    cases hinf : inf.bind predict with
    | none =>
      have happ : applyOp s (.submitCase uid pid ruta ts tp inf) =
          ⟨s.prediagnosticos ++ [pendingDoc uid pid ruta ts],
           s.diagnosticos⟩ := by
        simp [applyOp, process_image, hinf]
      rw [happ]
      exact inv_append_case ih _ (Or.inl ⟨uid, pid, ruta, ts, rfl⟩)
    | some r =>
      obtain ⟨row, hrow, hpred⟩ := Option.bind_eq_some.mp hinf
      have hlab := predict_label_mem hpred
      have hupd : updateOne
          (s.prediagnosticos ++ [pendingDoc uid pid ruta ts])
          "prediagnostico_id" (.str pid)
          (aiUpdates r.confidence r.predicted_class tp) =
          s.prediagnosticos ++
            [processedDoc uid pid ruta ts tp r.confidence
              r.predicted_class] := by
        rw [updateOne_append_last _ _ _ _ _ hfree
          (pendingDoc_get_pid uid pid ruta ts), pendingDoc_setMany_ai]
      have happ : applyOp s (.submitCase uid pid ruta ts tp inf) =
          ⟨s.prediagnosticos ++
            [processedDoc uid pid ruta ts tp r.confidence r.predicted_class],
           s.diagnosticos⟩ := by
        simp only [applyOp, process_image, hinf]
        rw [← hupd]
      rw [happ]
      exact inv_append_case ih _ (Or.inr (Or.inl
        ⟨uid, pid, ruta, ts, tp, r.confidence, r.predicted_class, hlab,
          rfl⟩))
  | @reviewStep s pid a c did tr tu hr ih =>
    by_cases hc : c.length < 10
    · have happ : applyOp s (.submitReview pid a c did tr tu) = s := by
        simp [applyOp, save_diagnostic, hc]
      rw [happ]; exact ih
    · cases hfind : findOne s.prediagnosticos "prediagnostico_id"
          (.str pid) with
      | none =>
        have happ : applyOp s (.submitReview pid a c did tr tu) = s := by
          simp [applyOp, save_diagnostic, hc, hfind]
        rw [happ]; exact ih
      | some cas =>
        by_cases hst : caseEstado cas = .str "procesado"
        · have happ : applyOp s (.submitReview pid a c did tr tu) =
              ⟨updateOne s.prediagnosticos "prediagnostico_id" (.str pid)
                [("estado", .str "Validado"),
                 ("fecha_actualizacion", .str tu)],
               s.diagnosticos ++ [reviewDoc did pid a c tr]⟩ := by
            simp [applyOp, save_diagnostic, hc, hfind, hst]
          rw [happ]
          exact inv_review_step ih hfind (caseEstado_eq_some hst) did a c tr
            tu
        · have happ : applyOp s (.submitReview pid a c did tr tu) = s := by
            simp [applyOp, save_diagnostic, hc, hfind, hst]
          rw [happ]; exact ih

/-! Correctness of the numpy-style first-occurrence argmax. -/

theorem argmaxAux_spec (xs : List ℚ) : ∀ (i best : Nat) (m : ℚ),
    (argmaxAux xs i best m = best ∧
      ∀ k, (hk : k < xs.length) → xs[k] ≤ m) ∨
    (∃ k, ∃ hk : k < xs.length, argmaxAux xs i best m = i + k ∧ m < xs[k] ∧
      (∀ j, (hj : j < xs.length) → xs[j] ≤ xs[k]) ∧
      (∀ j, (hj : j < xs.length) → j < k → xs[j] < xs[k])) := by
  induction xs with
  | nil =>
    intro i best m
    left
    exact ⟨rfl, fun k hk => absurd hk (by simp)⟩
  | cons x rest ih =>
    intro i best m
    by_cases hx : m < x
    · have hstep : argmaxAux (x :: rest) i best m = argmaxAux rest (i + 1) i x := by
        simp [argmaxAux, hx]
      rcases ih (i + 1) i x with ⟨heq, hall⟩ | ⟨k, hk, heq, hlt, hmax, hstrict⟩
      · right
        refine ⟨0, by simp, ?_, ?_, ?_, ?_⟩
        · rw [hstep, heq]; omega
        · simpa using hx
        · intro j hj
          cases j with
          | zero => simp
          | succ j2 =>
            have hj2 : j2 < rest.length := by simpa using hj
            simpa using hall j2 hj2
        · intro j hj hj0
          exact absurd hj0 (Nat.not_lt_zero j)
      · right
        have hk2 : k + 1 < (x :: rest).length := by
          simpa using Nat.succ_lt_succ hk
        refine ⟨k + 1, hk2, ?_, ?_, ?_, ?_⟩
        · rw [hstep, heq]; omega
        · have : (x :: rest)[k + 1] = rest[k] := by simp
          rw [this]; exact lt_trans hx hlt
        · intro j hj
          have hget : (x :: rest)[k + 1] = rest[k] := by simp
          rw [hget]
          cases j with
          | zero => simpa using le_of_lt hlt
          | succ j2 =>
            have hj2 : j2 < rest.length := by simpa using hj
            simpa using hmax j2 hj2
        · intro j hj hjk
          have hget : (x :: rest)[k + 1] = rest[k] := by simp
          rw [hget]
          cases j with
          | zero => simpa using hlt
          | succ j2 =>
            have hj2 : j2 < rest.length := by simpa using hj
            have hj2k : j2 < k := by omega
            simpa using hstrict j2 hj2 hj2k
    · have hstep : argmaxAux (x :: rest) i best m = argmaxAux rest (i + 1) best m := by
        simp [argmaxAux, hx]
      have hxm : x ≤ m := not_lt.mp hx
      rcases ih (i + 1) best m with ⟨heq, hall⟩ | ⟨k, hk, heq, hlt, hmax, hstrict⟩
      · left
        refine ⟨by rw [hstep, heq], ?_⟩
        intro j hj
        cases j with
        | zero => simpa using hxm
        | succ j2 =>
          have hj2 : j2 < rest.length := by simpa using hj
          simpa using hall j2 hj2
      · right
        have hk2 : k + 1 < (x :: rest).length := by
          simpa using Nat.succ_lt_succ hk
        have hxk : x < rest[k] := lt_of_le_of_lt hxm hlt
        refine ⟨k + 1, hk2, ?_, ?_, ?_, ?_⟩
        · rw [hstep, heq]; omega
        · have : (x :: rest)[k + 1] = rest[k] := by simp
          rw [this]; exact hlt
        · intro j hj
          have hget : (x :: rest)[k + 1] = rest[k] := by simp
          rw [hget]
          cases j with
          | zero => simpa using le_of_lt hxk
          | succ j2 =>
            have hj2 : j2 < rest.length := by simpa using hj
            simpa using hmax j2 hj2
        · intro j hj hjk
          have hget : (x :: rest)[k + 1] = rest[k] := by simp
          rw [hget]
          cases j with
          | zero => simpa using hxk
          | succ j2 =>
            have hj2 : j2 < rest.length := by simpa using hj
            have hj2k : j2 < k := by omega
            simpa using hstrict j2 hj2 hj2k

theorem npArgmax_first_max (row : List ℚ) (hrow : row ≠ []) :
    ∃ hidx : npArgmax row < row.length,
      (∀ j, (hj : j < row.length) → row[j] ≤ row[npArgmax row]) ∧
      (∀ j, (hj : j < row.length) → j < npArgmax row →
        row[j] < row[npArgmax row]) := by
  cases row with
  | nil => exact absurd rfl hrow
  | cons x xs =>
    rcases argmaxAux_spec xs 1 0 x with ⟨heq, hall⟩ |
        ⟨k, hk, heq, hlt, hmax, hstrict⟩
    · have hidx : npArgmax (x :: xs) = 0 := by
        rw [npArgmax, heq]
      rw [hidx]
      refine ⟨by simp, ?_, ?_⟩
      · intro j hj
        cases j with
        | zero => simp
        | succ j2 =>
          have hj2 : j2 < xs.length := by simpa using hj
          simpa using hall j2 hj2
      · intro j hj hj0
        exact absurd hj0 (Nat.not_lt_zero j)
    · have hidx : npArgmax (x :: xs) = k + 1 := by
        rw [npArgmax, heq]; omega
      rw [hidx]
      have hk2 : k + 1 < (x :: xs).length := by
        simpa using Nat.succ_lt_succ hk
      have hget : (x :: xs)[k + 1] = xs[k] := by simp
      refine ⟨hk2, ?_, ?_⟩
      · intro j hj
        rw [hget]
        cases j with
        | zero => simpa using le_of_lt hlt
        | succ j2 =>
          have hj2 : j2 < xs.length := by simpa using hj
          simpa using hmax j2 hj2
      · intro j hj hjk
        rw [hget]
        cases j with
        | zero => simpa using hlt
        | succ j2 =>
          have hj2 : j2 < xs.length := by simpa using hj
          have hj2k : j2 < k := by omega
          simpa using hstrict j2 hj2 hj2k

/-! Lemmas about the tensor produced by preprocessing. -/

theorem headD_rangeMap {α : Type} (n : Nat) (f : Nat → α) (d : α)
    (hn : n ≠ 0) : ((List.range n).map f).headD d = f 0 := by
  obtain ⟨m, rfl⟩ := Nat.exists_eq_succ_of_ne_zero hn
  rw [List.range_succ_eq_map]
  simp

theorem shape4_imageArray (img : PILImage) (hh : img.height ≠ 0)
    (hw : img.width ≠ 0) :
    shape4 (imageArray img) = [1, img.height, img.width, 3] := by
  simp only [shape4, imageArray, List.headD_cons, List.length_cons,
    List.length_nil]
  rw [headD_rangeMap img.height _ _ hh, headD_rangeMap img.width _ _ hw]
  simp

theorem imageArray_bounds (img : PILImage) :
    ∀ plane ∈ imageArray img, ∀ row ∈ plane, ∀ px ∈ row, ∀ v ∈ px,
      0 ≤ v ∧ v ≤ 1 := by
  intro plane hplane row hrow px hpx v hv
  rw [imageArray, List.mem_singleton] at hplane
  subst hplane
  rcases List.mem_map.mp hrow with ⟨i, hi, rfl⟩
  rcases List.mem_map.mp hpx with ⟨j, hj, rfl⟩
  rcases List.mem_map.mp hv with ⟨c, hc, rfl⟩
  constructor
  · positivity
  · rw [div_le_one (by norm_num)]
    have hval := Fin.is_le (img.data i j ⟨c % 4, Nat.mod_lt c (by norm_num)⟩)
    exact_mod_cast hval

/-! Lemmas about the HU3 list view. -/

theorem collectSome_mem_src {α β : Type} (f : α → Option β) :
    ∀ {l : List α} {out : List β}, collectSome f l = some out →
      ∀ c ∈ out, ∃ d ∈ l, f d = some c := by
  intro l
  induction l with
  | nil =>
    intro out h c hc
    simp only [collectSome] at h
    cases h
    simp at hc
  | cons x xs ih =>
    intro out h c hc
    unfold collectSome at h
    cases hfx : f x with
    | none => rw [hfx] at h; simp at h
    | some y =>
      rw [hfx] at h
      cases hxs : collectSome f xs with
      | none => rw [hxs] at h; simp at h
      | some ys =>
        rw [hxs] at h
        cases h
        rcases List.mem_cons.mp hc with rfl | hc2
        · exact ⟨x, List.mem_cons_self x xs, hfx⟩
        · obtain ⟨d, hd, hfd⟩ := ih hxs c hc2
          exact ⟨d, List.mem_cons_of_mem x hd, hfd⟩

theorem collectSome_mem_tgt {α β : Type} (f : α → Option β) :
    ∀ {l : List α} {out : List β}, collectSome f l = some out →
      ∀ d ∈ l, ∃ c ∈ out, f d = some c := by
  intro l
  induction l with
  | nil =>
    intro out h d hd
    simp at hd
  | cons x xs ih =>
    intro out h d hd
    unfold collectSome at h
    cases hfx : f x with
    | none => rw [hfx] at h; simp at h
    | some y =>
      rw [hfx] at h
      cases hxs : collectSome f xs with
      | none => rw [hxs] at h; simp at h
      | some ys =>
        rw [hxs] at h
        cases h
        rcases List.mem_cons.mp hd with rfl | hd2
        · exact ⟨y, List.mem_cons_self y ys, hfx⟩
        · obtain ⟨c, hc, hfc⟩ := ih hxs d hd2
          exact ⟨c, List.mem_cons_of_mem y hc, hfc⟩

theorem formatCase_fields {d c : Doc} (h : formatCase d = some c) :
    c.get "id" = d.get "prediagnostico_id" ∧
    c.get "paciente" = d.get "user_id" ∧
    c.get "estado" = d.get "estado" := by
  unfold formatCase at h
  cases hp : d.get "prediagnostico_id" with
  | none => rw [hp] at h; simp at h
  | some pidv =>
    cases hu : d.get "user_id" with
    | none => rw [hp, hu] at h; simp at h
    | some uidv =>
      cases he : d.get "estado" with
      | none => rw [hp, hu, he] at h; simp at h
      | some estv =>
        rw [hp, hu, he] at h
        simp only at h
        obtain ⟨f, hf, rfl⟩ := Option.map_eq_some'.mp h
        exact ⟨rfl, rfl, rfl⟩

/-! The claims. -/

/-- C1: in every reachable store, get_review_for_case
(GET /diagnostic/{case_id}) answers not-found for every case id — even
when a review for that case was persisted by a successful submit_review.
save_diagnostic stores the foreign key under the field name
`prediagnostico_id`, while get_diagnostic_by_case_id filters the
diagnosticos collection on the field name `case_id`, so the lookup can
never match a stored review; NotFoundError is returned both when no
review exists and when one does, refuting the claimed round trip and the
claimed iff. -/
theorem c1_get_diagnostic_always_notFound {s : Store} (h : Reach s)
    (cid : String) : get_diagnostic s cid = .notFound := by
  have inv := reach_inv h
  have hnone : findOne s.diagnosticos "case_id" (.str cid) = none := by
    rw [findOne_eq_none]
    intro d hd
    obtain ⟨did, pid, a, c, tr, rfl⟩ := inv.reviews d hd
    rw [reviewDoc_get_case_id]
    simp
  unfold get_diagnostic
  rw [hnone]

theorem c1_get_diagnostic_always_notFound_witness :
    get_diagnostic (applyOp (applyOp Store.empty
        (.submitCase "u1" "c1" "ruta1" "t0" "t1"
          (some [(1 : ℚ), 0, 0])))
      (.submitReview "c1" true "hallazgos ok" "d1" "t2" "t3")) "c1" =
      .notFound ∧
    (applyOp (applyOp Store.empty
        (.submitCase "u1" "c1" "ruta1" "t0" "t1"
          (some [(1 : ℚ), 0, 0])))
      (.submitReview "c1" true "hallazgos ok" "d1" "t2" "t3")).diagnosticos =
      [reviewDoc "d1" "c1" true "hallazgos ok" "t2"] :=
  ⟨c1_get_diagnostic_always_notFound
    (Reach.reviewStep (Reach.caseStep Reach.empty rfl)) "c1", by rfl⟩

/-- C2 counterexample: a submit_case whose inference step fails leaves the
case record in state `pendiente` with the `resultado_modelo` field
present (the placeholder written at creation), refuting both "model_result
is present if and only if the state is processed or validated" and
"creates a Case record in state pending with model_result absent". -/
theorem c2_counterexample :
    (applyOp Store.empty
        (.submitCase "u1" "c1" "ruta1" "t0" "t1" none)).prediagnosticos =
      [pendingDoc "u1" "c1" "ruta1" "t0"] ∧
    (pendingDoc "u1" "c1" "ruta1" "t0").get "estado" =
      some (.str "pendiente") ∧
    (pendingDoc "u1" "c1" "ruta1" "t0").get "resultado_modelo" =
      some (.result 0 "") :=
  ⟨rfl, rfl, rfl⟩

/-- C2 (amended): in every reachable store, every case record carries the
`resultado_modelo` field; it equals the placeholder
{probabilidad_neumonia 0, etiqueta ""} exactly when the state is
`pendiente`, and in state `procesado` or `Validado` it holds a result
whose label is one of the configured class labels. -/
theorem c2_resultado_modelo_amended {s : Store} (h : Reach s) :
    ∀ d ∈ s.prediagnosticos,
      (∃ v, d.get "resultado_modelo" = some v) ∧
      (d.get "estado" = some (.str "pendiente") ↔
        d.get "resultado_modelo" = some (.result 0 "")) ∧
      ((d.get "estado" = some (.str "procesado") ∨
          d.get "estado" = some (.str "Validado")) →
        ∃ conf lab, d.get "resultado_modelo" = some (.result conf lab) ∧
          lab ∈ CLASS_LABELS) := by
  intro d hd
  rcases (reach_inv h).cases d hd with ⟨uid, pid, ruta, ts, rfl⟩ |
      ⟨uid, pid, ruta, ts, tp, conf, lab, hlab, rfl⟩ |
      ⟨uid, pid, ruta, ts, tp, conf, lab, tu, hlab, rfl⟩
  · refine ⟨⟨_, pendingDoc_get_resultado uid pid ruta ts⟩, ?_, ?_⟩
    · rw [pendingDoc_get_estado, pendingDoc_get_resultado]
      exact ⟨fun _ => rfl, fun _ => rfl⟩
    · rw [pendingDoc_get_estado]
      intro hcontra
      rcases hcontra with h1 | h1 <;> simp at h1
  · refine ⟨⟨_, processedDoc_get_resultado uid pid ruta ts tp conf lab⟩,
      ?_, ?_⟩
    · rw [processedDoc_get_estado, processedDoc_get_resultado]
      constructor
      · intro h1; simp at h1
      · intro h1
        simp only [Option.some.injEq, Val.result.injEq] at h1
        rw [h1.2] at hlab
        exact absurd hlab (by decide)
    · intro h1
      exact ⟨conf, lab, processedDoc_get_resultado uid pid ruta ts tp conf
        lab, hlab⟩
  · refine ⟨⟨_, validatedDoc_get_resultado uid pid ruta ts tp conf lab tu⟩,
      ?_, ?_⟩
    · rw [validatedDoc_get_estado, validatedDoc_get_resultado]
      constructor
      · intro h1; simp at h1
      · intro h1
        simp only [Option.some.injEq, Val.result.injEq] at h1
        rw [h1.2] at hlab
        exact absurd hlab (by decide)
    · intro h1
      exact ⟨conf, lab, validatedDoc_get_resultado uid pid ruta ts tp conf
        lab tu, hlab⟩

theorem c2_resultado_modelo_amended_witness :
    (∃ v, (pendingDoc "u1" "c1" "ruta1" "t0").get "resultado_modelo" =
      some v) ∧
    ((pendingDoc "u1" "c1" "ruta1" "t0").get "estado" =
        some (.str "pendiente") ↔
      (pendingDoc "u1" "c1" "ruta1" "t0").get "resultado_modelo" =
        some (.result 0 "")) ∧
    (((pendingDoc "u1" "c1" "ruta1" "t0").get "estado" =
          some (.str "procesado") ∨
        (pendingDoc "u1" "c1" "ruta1" "t0").get "estado" =
          some (.str "Validado")) →
      ∃ conf lab, (pendingDoc "u1" "c1" "ruta1" "t0").get
          "resultado_modelo" = some (.result conf lab) ∧
        lab ∈ CLASS_LABELS) :=
  c2_resultado_modelo_amended
    (show Reach (applyOp Store.empty
        (.submitCase "u1" "c1" "ruta1" "t0" "t1" none)) from
      Reach.caseStep Reach.empty rfl)
    (pendingDoc "u1" "c1" "ruta1" "t0") (by decide)

/-- C3: submit_review on an existing case whose state is not `procesado`
(with a comment the transport boundary accepts, since Pydantic validates
the body before the handler runs) answers InvalidStateError (400) and
performs no write: the store is returned untouched, so no DiagnosticReview
is created and the case record is unchanged. -/
theorem c3_invalid_state_no_write (s : Store) (pid : String) (a : Bool)
    (c did tr tu : String) (d : Doc) (hlen : 10 ≤ c.length)
    (hfind : findOne s.prediagnosticos "prediagnostico_id" (.str pid) =
      some d)
    (hstate : caseEstado d ≠ .str "procesado") :
    save_diagnostic s pid a c did tr tu = (.badRequest, s) := by
  unfold save_diagnostic
  rw [if_neg (by omega), hfind]
  simp [hstate]

theorem c3_invalid_state_no_write_witness :
    save_diagnostic ⟨[pendingDoc "u1" "c1" "ruta1" "t0"], []⟩ "c1" true
      "comentario valido" "d1" "t2" "t3" =
      (.badRequest, ⟨[pendingDoc "u1" "c1" "ruta1" "t0"], []⟩) :=
  c3_invalid_state_no_write _ "c1" true "comentario valido" "d1" "t2" "t3"
    (pendingDoc "u1" "c1" "ruta1" "t0") (by decide) (by decide) (by decide)

/-- C4: when the case record was created but normalization or inference
then fails — whether before the forward pass (`inf = none`) or in the
predict post-processing — process_image answers a 500 server fault and
leaves the case exactly as created: present (not rolled back), in state
`pendiente` with the placeholder result, with no failure state. -/
theorem c4_failure_leaves_pending (s : Store) (uid pid ruta ts tp : String)
    (inf : Option (List ℚ)) (hfail : inf.bind predict = none) :
    process_image s uid pid ruta ts tp inf =
      (.serverError,
        { s with prediagnosticos :=
            s.prediagnosticos ++ [pendingDoc uid pid ruta ts] }) ∧
    (pendingDoc uid pid ruta ts).get "estado" = some (.str "pendiente") := by
  refine ⟨?_, pendingDoc_get_estado uid pid ruta ts⟩
  unfold process_image
  rw [hfail]

theorem c4_failure_leaves_pending_witness :
    process_image Store.empty "u1" "c1" "ruta1" "t0" "t1" none =
      (.serverError,
        { Store.empty with prediagnosticos :=
            Store.empty.prediagnosticos ++
              [pendingDoc "u1" "c1" "ruta1" "t0"] }) ∧
    (pendingDoc "u1" "c1" "ruta1" "t0").get "estado" =
      some (.str "pendiente") :=
  c4_failure_leaves_pending Store.empty "u1" "c1" "ruta1" "t0" "t1" none rfl

/-- C5: for every successful predict, the predicted index is the lowest
index achieving the maximum of the probability row (numpy first-occurrence
argmax), the confidence is the probability at that index, and the
predicted label is the entry of the fixed CLASS_LABELS list at that
index. -/
theorem c5_predict_first_argmax {row : List ℚ} {r : PredictResult}
    (h : predict row = some r) :
    r.predictions = row ∧
    (∃ hidx : r.predicted_class_index < row.length,
      row[r.predicted_class_index] = r.confidence ∧
      (∀ j, (hj : j < row.length) → row[j] ≤ r.confidence) ∧
      (∀ j, (hj : j < row.length) → j < r.predicted_class_index →
        row[j] < r.confidence)) ∧
    CLASS_LABELS.get? r.predicted_class_index = some r.predicted_class := by
  obtain ⟨hpreds, hidxeq, hlabel, hconf⟩ := predict_some h
  have hne : row ≠ [] := by
    intro hnil
    rw [hnil] at h
    simp [predict] at h
  obtain ⟨hlt, hmax, hstrict⟩ := npArgmax_first_max row hne
  have hconfval : row[npArgmax row] = r.confidence := by
    have h1 : row.get? (npArgmax row) = some (row.get ⟨npArgmax row, hlt⟩) :=
      List.get?_eq_get hlt
    rw [h1] at hconf
    exact Option.some.inj hconf
  rw [hidxeq]
  refine ⟨hpreds, ⟨hlt, hconfval, ?_, ?_⟩, hlabel⟩
  · intro j hj
    rw [← hconfval]
    exact hmax j hj
  · intro j hj hjlt
    rw [← hconfval]
    exact hstrict j hj hjlt

theorem c5_predict_first_argmax_witness :
    ∃ r : PredictResult, predict [(1 : ℚ), 3, 3] = some r ∧
      (r.predictions = [(1 : ℚ), 3, 3] ∧
      (∃ hidx : r.predicted_class_index < ([(1 : ℚ), 3, 3] : List ℚ).length,
        ([(1 : ℚ), 3, 3] : List ℚ)[r.predicted_class_index] = r.confidence ∧
        (∀ j, (hj : j < ([(1 : ℚ), 3, 3] : List ℚ).length) →
          ([(1 : ℚ), 3, 3] : List ℚ)[j] ≤ r.confidence) ∧
        (∀ j, (hj : j < ([(1 : ℚ), 3, 3] : List ℚ).length) →
          j < r.predicted_class_index →
          ([(1 : ℚ), 3, 3] : List ℚ)[j] < r.confidence)) ∧
      CLASS_LABELS.get? r.predicted_class_index = some r.predicted_class) :=
  ⟨_, rfl, c5_predict_first_argmax rfl⟩

/-- C6: whenever preprocess_image accepts an image at the configured
IMAGE_SIZE, the produced tensor has numpy shape [1, 720, 500, 3]
(batch 1, height 720, width 500, 3 channels) and every element lies in
[0, 1]. -/
theorem c6_preprocess_shape_bounds (resample : ResampleK) (img : PILImage)
    (t : Tensor4) (h : preprocess_image resample img IMAGE_SIZE = .ok t) :
    shape4 t = [1, 720, 500, 3] ∧
    ∀ plane ∈ t, ∀ row ∈ plane, ∀ px ∈ row, ∀ v ∈ px, 0 ≤ v ∧ v ≤ 1 := by
  unfold preprocess_image at h
  cases hc : convert_one_channel_to_three_channels img with
  | error e =>
    rw [hc] at h
    simp [Except.map] at h
  | ok conv =>
    rw [hc] at h
    simp only [Except.map, Except.ok.injEq] at h
    subst h
    constructor
    · have hsh := shape4_imageArray (resize_image resample conv IMAGE_SIZE)
        (by norm_num [resize_image, IMAGE_SIZE])
        (by norm_num [resize_image, IMAGE_SIZE])
      simpa [resize_image, IMAGE_SIZE] using hsh
    · exact imageArray_bounds _

theorem c6_preprocess_shape_bounds_witness :
    ∃ t, preprocess_image (fun d _ _ => d)
        ⟨100, 80, .RGB, true, fun _ _ _ => ⟨7, by norm_num⟩⟩ IMAGE_SIZE =
        Except.ok t ∧ shape4 t = [1, 720, 500, 3] :=
  ⟨_, rfl, (c6_preprocess_shape_bounds (fun d _ _ => d)
    ⟨100, 80, .RGB, true, fun _ _ _ => ⟨7, by norm_num⟩⟩ _ rfl).1⟩

/-- C7: normalization is deterministic. The pipeline of predict_from_file
is a function of the uploaded bytes and the fixed numeric kernels alone:
two runs on equal input bytes produce the same normalized tensor, and the
responses of the two runs agree on everything except the per-call uuid
and clock reading. -/
theorem c7_normalize_deterministic (decode : Bytes → Option PILImage)
    (resample : ResampleK) (jpeg : JpegK) (modelK : Tensor4 → List ℚ)
    (fn : Option String) (pid1 ts1 pid2 ts2 : String) (b1 b2 : Bytes)
    (hb : b1 = b2) :
    normalize_from_file decode resample jpeg b1 =
      normalize_from_file decode resample jpeg b2 ∧
    (predict_from_file decode resample jpeg modelK pid1 ts1 b1 fn).map
        FileResponse.payload =
      (predict_from_file decode resample jpeg modelK pid2 ts2 b2 fn).map
        FileResponse.payload := by
  subst hb
  refine ⟨rfl, ?_⟩
  unfold predict_from_file
  cases hdec : decode b1 with
  | none => rfl
  | some original =>
    cases hnorm : normalize_from_file decode resample jpeg b1 with
    | error e => rfl
    | ok t =>
      dsimp only
      cases predict (modelK t) with
      | none => rfl
      | some r => rfl

theorem c7_normalize_deterministic_witness :
    normalize_from_file (fun _ => none) (fun d _ _ => d) (fun d _ _ => d)
        [] =
      normalize_from_file (fun _ => none) (fun d _ _ => d) (fun d _ _ => d)
        [] ∧
    (predict_from_file (fun _ => none) (fun d _ _ => d) (fun d _ _ => d)
        (fun _ => []) "p1" "t1" [] none).map FileResponse.payload =
      (predict_from_file (fun _ => none) (fun d _ _ => d) (fun d _ _ => d)
        (fun _ => []) "p2" "t2" [] none).map FileResponse.payload :=
  c7_normalize_deterministic (fun _ => none) (fun d _ _ => d)
    (fun d _ _ => d) (fun _ => []) none "p1" "t1" "p2" "t2" [] [] rfl

/-- C8: for a decoded image (one `verify()` accepts), validate_image
rejects exactly the images with a spatial dimension under 50 pixels or a
color mode outside the supported set — RGB (3-channel), RGBA (4-channel),
L (single-channel), P (palette) — and otherwise validation passes;
and the predict_from_file pipeline fails with the validation error
precisely when validate_image rejects. -/
theorem c8_validate_spec (img : PILImage) (hintact : img.intact = true)
    (decode : Bytes → Option PILImage) (resample : ResampleK)
    (jpeg : JpegK) (content : Bytes) (hdec : decode content = some img) :
    (validate_image img = false ↔
      (img.width < 50 ∨ img.height < 50 ∨
        ¬ img.mode ∈ [PILMode.RGB, .RGBA, .L, .P])) ∧
    (normalize_from_file decode resample jpeg content =
        .error .validationError ↔ validate_image img = false) := by
  constructor
  · unfold validate_image
    rw [hintact]
    by_cases h1 : img.width < 50
    · simp [h1]
    · by_cases h2 : img.height < 50
      · simp [h1, h2]
      · by_cases h3 : img.mode ∈ [PILMode.RGB, .RGBA, .L, .P]
        · simp [h1, h2, h3]
        · simp [h1, h2, h3]
  · unfold normalize_from_file
    rw [hdec]
    dsimp only
    by_cases hval : validate_image img = false
    · rw [hval]
      simp
    · have hval2 : validate_image img = true := by
        cases hv : validate_image img
        · exact absurd hv hval
        · rfl
      rw [hval2]
      cases hpre : preprocess_image resample
          (convert_to_jpeg_reopen jpeg img) IMAGE_SIZE with
      | error e => simp [hpre, hval2]
      | ok t => simp [hpre, hval2]

theorem c8_validate_spec_witness :
    (validate_image ⟨30, 100, .RGB, true, fun _ _ _ => 0⟩ = false ↔
      ((30 : Nat) < 50 ∨ (100 : Nat) < 50 ∨
        ¬ PILMode.RGB ∈ [PILMode.RGB, .RGBA, .L, .P])) ∧
    (normalize_from_file
        (fun _ => some ⟨30, 100, .RGB, true, fun _ _ _ => 0⟩)
        (fun d _ _ => d) (fun d _ _ => d) [] =
        .error .validationError ↔
      validate_image ⟨30, 100, .RGB, true, fun _ _ _ => 0⟩ = false) :=
  c8_validate_spec ⟨30, 100, .RGB, true, fun _ _ _ => 0⟩ rfl
    (fun _ => some ⟨30, 100, .RGB, true, fun _ _ _ => 0⟩)
    (fun d _ _ => d) (fun d _ _ => d) [] rfl

/-- C9: get_processed_cases returns exactly the stored cases whose state
is `procesado` — `pendiente` and `Validado` cases contribute nothing —
and each returned row is the projection of its source case: id from
prediagnostico_id, paciente from user_id, estado from estado (plus the
formatted processing date). -/
theorem c9_processed_cases_spec (s : Store) (out : List Doc)
    (h : get_processed_cases s = some out) :
    (∀ c ∈ out, ∃ d ∈ s.prediagnosticos,
        d.get "estado" = some (.str "procesado") ∧ formatCase d = some c ∧
        c.get "id" = d.get "prediagnostico_id" ∧
        c.get "paciente" = d.get "user_id" ∧
        c.get "estado" = d.get "estado") ∧
    (∀ d ∈ s.prediagnosticos, d.get "estado" = some (.str "procesado") →
      ∃ c ∈ out, formatCase d = some c) := by
  unfold get_processed_cases at h
  constructor
  · intro c hc
    obtain ⟨d, hdf, hfc⟩ := collectSome_mem_src _ h c hc
    have hdmem := List.mem_of_mem_filter hdf
    have hdproc : d.get "estado" = some (.str "procesado") := by
      have := List.of_mem_filter hdf
      simpa using this
    obtain ⟨h1, h2, h3⟩ := formatCase_fields hfc
    exact ⟨d, hdmem, hdproc, hfc, h1, h2, h3⟩
  · intro d hd hproc
    have hdf : d ∈ s.prediagnosticos.filter
        (fun x => x.get "estado" = some (.str "procesado")) :=
      List.mem_filter.mpr ⟨hd, by simp [hproc]⟩
    exact collectSome_mem_tgt _ h d hdf

theorem c9_processed_cases_spec_witness :
    ∃ out, get_processed_cases
        ⟨[pendingDoc "u0" "c0" "r0" "s0",
          processedDoc "u1" "c1" "r1" "t0" "t1" 1 "No Pneumonia"], []⟩ =
        some out ∧
      (∀ d ∈ ([pendingDoc "u0" "c0" "r0" "s0",
          processedDoc "u1" "c1" "r1" "t0" "t1" 1 "No Pneumonia"] :
            List Doc),
        d.get "estado" = some (.str "procesado") →
        ∃ c ∈ out, formatCase d = some c) :=
  ⟨_, rfl, (c9_processed_cases_spec
    ⟨[pendingDoc "u0" "c0" "r0" "s0",
      processedDoc "u1" "c1" "r1" "t0" "t1" 1 "No Pneumonia"], []⟩ _
    rfl).2⟩

/-- C10: in every sequential execution from the empty store (with uuid4
case ids that match no existing case), each case id has at most one
stored DiagnosticReview: a successful submit_review moves the case to
`Validado` before returning, so a later submit_review for the same case
fails the `procesado` state check before writing. -/
theorem c10_at_most_one_review {s : Store} (h : Reach s) (pid : String) :
    (s.diagnosticos.filter fun d => pidVal d = some (.str pid)).length ≤
      1 :=
  pairwise_filter_length_le_one pidVal (some (.str pid)) s.diagnosticos
    (reach_inv h).reviewsPairwise

theorem c10_at_most_one_review_witness :
    ((applyOp (applyOp Store.empty
          (.submitCase "u1" "c1" "ruta1" "t0" "t1" (some [(1 : ℚ), 0, 0])))
        (.submitReview "c1" true "hallazgos ok" "d1" "t2"
          "t3")).diagnosticos.filter
      fun d => pidVal d = some (.str "c1")).length ≤ 1 :=
  c10_at_most_one_review
    (Reach.reviewStep (Reach.caseStep Reach.empty rfl)) "c1"

end Prediag
